import Mathlib

/-!
Verification development for rest-sync-lite: a shallow embedding of the
durable request queue (src/src/storage/db.ts, src/src/queue/queue-manager.ts),
the sync engine (src/src/engine/sync.ts, which contains two concatenated
revisions of the SyncEngine class), the request mediator facade
(src/src/index.ts) and the utilities (calculateBackoff in
src/src/utils/uuid.ts, serializeBody in src/unnamed/part_008), together
with theorems settling the frozen claims about them.

Machine numbers are modelled as Nat, and the millisecond delays computed by
calculateBackoff as rationals (the JavaScript doubles involved are exact on
every value reachable here).  Nondeterministic inputs of the code (the
jitter drawn by Math.random, the UUID generator, Date.now, the network
reachability reads and the HTTP outcome of each fetch) are passed in as
explicit parameters or oracle lists.
-/

/-- The request body sum type, following the dynamic type dispatch of the
source (type RequestBody in src/src/queue/types.ts:
string | Blob | ArrayBuffer | FormData | URLSearchParams |
Record<string, any> | null).  Plain records are modelled as string-to-string
association lists. -/
inductive Body where
  | null : Body
  | str (s : String) : Body
  | blob (data : List Nat) : Body
  | buf (data : List Nat) : Body
  | form (fields : List (String × String)) : Body
  | urlenc (fields : List (String × String)) : Body
  | obj (fields : List (String × String)) : Body
deriving DecidableEq

/-- JavaScript truthiness on the Body sum type: null and the empty string
are the falsy inhabitants; Blob, ArrayBuffer, FormData, URLSearchParams and
plain objects are always truthy. -/
def isFalsyBody : Body → Bool
  | Body.null => true
  | Body.str s => s == ""
  | _ => false

/-- JSON string escaping (quote and backslash, the cases reachable from the
claims). -/
def jsonEscape (s : String) : String :=
  s.data.foldl (fun acc c =>
    acc ++ (if c = '"' then "\\\"" else if c = '\\' then "\\\\" else String.singleton c)) ""

/-- JSON.stringify of a string value. -/
def jsonStr (s : String) : String := "\"" ++ jsonEscape s ++ "\""

/-- JSON.stringify on the Body sum type.  Blob, ArrayBuffer, FormData and
URLSearchParams have no enumerable own properties, so JSON.stringify yields
the empty object text on them; plain records serialize their fields. -/
def jsonStringify : Body → String
  | Body.null => "null"
  | Body.str s => jsonStr s
  | Body.blob _ => "\x7b\x7d"
  | Body.buf _ => "\x7b\x7d"
  | Body.form _ => "\x7b\x7d"
  | Body.urlenc _ => "\x7b\x7d"
  | Body.obj fields =>
      "\x7b" ++ String.intercalate "," (fields.map (fun f => jsonStr f.1 ++ ":" ++ jsonStr f.2)) ++ "\x7d"

/-- serializeBody from src/unnamed/part_008: a falsy body returns null
first, then strings, Blob, ArrayBuffer, FormData and URLSearchParams pass
through unchanged, and any other value is JSON-stringified. -/
def serializeBody (body : Body) : Body :=
  if isFalsyBody body then Body.null
  else match body with
    | Body.str s => Body.str s
    | Body.blob d => Body.blob d
    | Body.buf d => Body.buf d
    | Body.form f => Body.form f
    | Body.urlenc f => Body.urlenc f
    | Body.obj f => Body.str (jsonStringify (Body.obj f))
    | Body.null => Body.null

/-- calculateBackoff from src/src/utils/uuid.ts (lines 27 to 47): the
exponential delay base * 2 ^ attempt is capped at maxDelay, a random jitter
in [0, 100) is added, and the sum is capped at maxDelay + 100.  The jitter
drawn by Math.random is passed in explicitly. -/
def calculateBackoff (attempt : Nat) (baseDelay : ℚ) (maxDelay : ℚ) (jitter : ℚ) : ℚ :=
  let exponentialDelay := baseDelay * 2 ^ attempt
  let cappedDelay := min exponentialDelay maxDelay
  min (cappedDelay + jitter) (maxDelay + 100)

/-- Priority enum from src/src/queue/types.ts. -/
inductive Priority where
  | high : Priority
  | normal : Priority
  | low : Priority
deriving DecidableEq

/-- RequestItem from src/src/queue/types.ts.  The priority field is
optional there, so it is an Option here; an absent priority is an entry the
IndexedDB priority index does not contain. -/
structure RequestItem where
  id : String
  url : String
  method : String
  headers : List (String × String)
  body : Body
  timestamp : Nat
  retryCount : Nat
  priority : Option Priority
deriving DecidableEq

/-- The object store of src/src/storage/db.ts: records keyed by an
auto-incrementing integer.  Cursor order in IndexedDB is ascending primary
key, which the peek operations below realize by taking the minimal key, so
the list order of entries carries no meaning of its own. -/
structure Store where
  entries : List (Nat × RequestItem)
  nextKey : Nat
deriving DecidableEq

/-- One step of the minimal-key fold. -/
def minStep (acc : Option (Nat × RequestItem)) (e : Nat × RequestItem) : Option (Nat × RequestItem) :=
  match acc with
  | none => some e
  | some a => if e.1 < a.1 then some e else some a

/-- The entry with the least primary key, i.e. the record an ascending
IndexedDB cursor visits first. -/
def minByKey (l : List (Nat × RequestItem)) : Option (Nat × RequestItem) :=
  l.foldl minStep none

/-- addItem from src/src/storage/db.ts: store.add under autoIncrement
assigns the next key and returns it. -/
def addItem (s : Store) (item : RequestItem) : Store × Nat :=
  (⟨s.entries ++ [(s.nextKey, item)], s.nextKey + 1⟩, s.nextKey)

/-- peekItem from src/src/storage/db.ts: openCursor and read the first
record, i.e. the one with the least key. -/
def peekItem (s : Store) : Option (Nat × RequestItem) :=
  minByKey s.entries

/-- peekFirstByPriority from src/src/storage/db.ts (lines 159 to 183): a
cursor over the priority index restricted to one priority value; the first
record visited is the matching entry with the least primary key.  Entries
whose priority field is absent are not in the index. -/
def peekFirstByPriority (s : Store) (p : Priority) : Option (Nat × RequestItem) :=
  minByKey (s.entries.filter (fun e => e.2.priority == some p))

/-- removeItem from src/src/storage/db.ts: store.delete of a key, a no-op
when the key is absent. -/
def removeItem (s : Store) (k : Nat) : Store :=
  ⟨s.entries.filter (fun e => e.1 != k), s.nextKey⟩

/-- count from src/src/storage/db.ts. -/
def count (s : Store) : Nat := s.entries.length

/-- updateItem from src/src/storage/db.ts: store.put with an explicit key
replaces the record at that key when present and inserts a fresh record at
that key otherwise. -/
def updateItem (s : Store) (k : Nat) (v : RequestItem) : Store :=
  if s.entries.any (fun e => e.1 == k) then
    ⟨s.entries.map (fun e => if e.1 == k then (k, v) else e), s.nextKey⟩
  else
    ⟨s.entries ++ [(k, v)], s.nextKey⟩

/-- removeByField from src/src/storage/db.ts specialized to the id field
(the only use in the repository): scan an ascending cursor, delete the
first record whose id equals the value and resolve true, or resolve false
when the cursor is exhausted.  The first match of an ascending cursor is
the matching entry with the least primary key. -/
def removeByField (s : Store) (value : String) : Store × Bool :=
  match minByKey (s.entries.filter (fun e => e.2.id == value)) with
  | none => (s, false)
  | some e => (removeItem s e.1, true)

/-- The queue-manager state of src/src/queue/queue-manager.ts: the store it
wraps together with the cached _queueSize counter (seeded by a count on
init, incremented on enqueue, decremented with a clamp at zero on
dequeue). -/
structure QMState where
  store : Store
  size : Nat
deriving DecidableEq

/-- The queue-change event the queue manager emits (named queue:update in
the source). -/
inductive QEvent where
  | queueUpdate : QEvent
deriving DecidableEq

/-- The argument of enqueueRequest: the caller-supplied fields of a queued
request, with the optional priority tag and optional custom id of the
v1.3 API (src/test/cancellation.test.ts and src/src/index.ts pass both). -/
structure EnqueueInput where
  url : String
  method : String
  headers : List (String × String)
  body : Body
  priority : Option Priority
  id : Option String
deriving DecidableEq

namespace QueueManager

/-- Modelled from the spec: the v1.3 QueueManager.enqueueRequest is not
under src/ (the revision in src/src/queue/queue-manager.ts predates the
custom-id feature its tests src/test/cancellation.test.ts and caller
src/src/index.ts use); per section 4.E it assigns the id using the supplied
id when present and a fresh UUID otherwise, sets timestamp to now and
retryCount to 0, persists via the source-derived addItem, bumps the cached
size and emits queue-change, returning the assigned id.  The generated UUID
and the current time are passed in as genId and now. -/
def enqueueRequest (st : QMState) (genId : String) (now : Nat) (req : EnqueueInput) :
    QMState × String × List QEvent :=
  let rid := req.id.getD genId
  let item : RequestItem :=
    ⟨rid, req.url, req.method, req.headers, req.body, now, 0, req.priority⟩
  let added := addItem st.store item
  (⟨added.1, st.size + 1⟩, rid, [QEvent.queueUpdate])

/-- Modelled from the spec: the v1.3 QueueManager.peekNextRequest is not
under src/ (the revision present reads the bare insertion-order head and
predates the priority feature exercised by src/test/cancellation.test.ts);
per section 4.E it tries peekFirstByPriority(high), then normal, then low,
then falls back to the untagged peekFirst.  Both underlying store reads are
the source-derived definitions from src/src/storage/db.ts. -/
def peekNextRequest (s : Store) : Option (Nat × RequestItem) :=
  match peekFirstByPriority s Priority.high with
  | some e => some e
  | none =>
    match peekFirstByPriority s Priority.normal with
    | some e => some e
    | none =>
      match peekFirstByPriority s Priority.low with
      | some e => some e
      | none => peekItem s

/-- dequeueRequest from src/src/queue/queue-manager.ts: remove by store
key, decrement the cached size clamping at zero (Nat subtraction performs
the Math.max(0, size - 1) clamp), emit queue-change. -/
def dequeueRequest (st : QMState) (k : Nat) : QMState × List QEvent :=
  (⟨removeItem st.store k, st.size - 1⟩, [QEvent.queueUpdate])

/-- updateRequest from src/src/queue/queue-manager.ts: persist a mutated
item at its key; the cached size is untouched. -/
def updateRequest (st : QMState) (k : Nat) (item : RequestItem) : QMState :=
  ⟨updateItem st.store k item, st.size⟩

/-- Modelled from the spec: the v1.3 QueueManager.cancelRequest is not
under src/ (only its tests src/test/cancellation.test.ts and its caller
src/src/index.ts are); per section 4.E it locates the entry by logical id
via a cursor scan, removes it when found and emits, returning whether an
entry was removed; the cached size is decremented (clamped) exactly when an
entry was removed.  The scan-and-delete is the source-derived removeByField
of src/src/storage/db.ts. -/
def cancelRequest (st : QMState) (rid : String) : QMState × Bool × List QEvent :=
  let res := removeByField st.store rid
  if res.2 then
    (⟨res.1, st.size - 1⟩, true, [QEvent.queueUpdate])
  else
    (⟨res.1, st.size⟩, false, [])

end QueueManager

/-- The facade event relevant to cancellation (src/src/index.ts). -/
inductive FEvent where
  | requestCancelled (rid : String) : FEvent
deriving DecidableEq

namespace RestSyncLite

/-- RestSyncLite.cancelRequest from src/src/index.ts (lines 155 to 165):
delegate to the queue manager, emit request:cancelled only when an entry
was removed, and return whether one was. -/
def cancelRequest (st : QMState) (rid : String) : QMState × Bool × List FEvent :=
  let res := QueueManager.cancelRequest st rid
  (res.1, res.2.1, if res.2.1 then [FEvent.requestCancelled rid] else [])

end RestSyncLite

/-- One queue-manager operation of the single-context sequences claim C9
quantifies over.  Enqueue carries the nondeterministic inputs (generated
UUID, current time) alongside the caller-supplied fields. -/
inductive QOp where
  | enqueue (genId : String) (now : Nat) (req : EnqueueInput) : QOp
  | dequeue (k : Nat) : QOp
  | update (k : Nat) (item : RequestItem) : QOp
  | cancel (rid : String) : QOp
deriving DecidableEq

/-- Apply one completed queue-manager operation to the state. -/
def applyOp (st : QMState) : QOp → QMState
  | QOp.enqueue g n r => (QueueManager.enqueueRequest st g n r).1
  | QOp.dequeue k => (QueueManager.dequeueRequest st k).1
  | QOp.update k it => QueueManager.updateRequest st k it
  | QOp.cancel rid => (QueueManager.cancelRequest st rid).1

/-- Apply a sequence of completed operations in order. -/
def applyOps (st : QMState) : List QOp → QMState
  | [] => st
  | op :: ops => applyOps (applyOp st op) ops

/-- The state right after init on a fresh database: empty store, cached
size seeded by count (src/src/queue/queue-manager.ts init). -/
def initQM : QMState := ⟨⟨[], 0⟩, 0⟩

/-- A sequence of operations is key-valid when every dequeue and every
update targets a key present in the store at the moment it runs (the keys
a single well-behaved context holds are exactly those obtained from peeks
of entries still present). -/
def validOps (st : QMState) : List QOp → Bool
  | [] => true
  | op :: ops =>
    (match op with
     | QOp.dequeue k => st.store.entries.any (fun e => e.1 == k)
     | QOp.update k _ => st.store.entries.any (fun e => e.1 == k)
     | _ => true)
    && validOps (applyOp st op) ops

/-- The outcome the platform fetch primitive hands one replay attempt:
either it resolved with some HTTP status, or it threw (network, DNS,
timeout). -/
inductive FetchResult where
  | status (code : Nat) : FetchResult
  | netError : FetchResult
deriving DecidableEq

/-- The error object processRequest throws into the drain loop: either the
thrown status object (response not ok) or the fetch exception itself, which
carries no numeric status. -/
inductive FetchError where
  | http (status : Nat) : FetchError
  | net : FetchError
deriving DecidableEq

/-- response.ok of the platform: status in the 2xx range. -/
def statusOk (code : Nat) : Bool := 200 ≤ code && code < 300

/-- processRequest of the first SyncEngine revision
(src/src/engine/sync.ts, lines 108 to 119) as an outcome classifier: a 2xx
resolution returns cleanly (none), any other status is thrown as an http
error object, a fetch exception is rethrown as a status-less error. -/
def processRequest (f : FetchResult) : Option FetchError :=
  match f with
  | FetchResult.status c => if statusOk c then none else some (FetchError.http c)
  | FetchResult.netError => some FetchError.net

/-- isPermanentError of the first SyncEngine revision
(src/src/engine/sync.ts, lines 121 to 126): a status in the 4xx range other
than 401 and 429; errors without a numeric status count as transient. -/
def isPermanentError (e : FetchError) : Bool :=
  match e with
  | FetchError.http status => 400 ≤ status && status < 500 && status != 401 && status != 429
  | FetchError.net => false

/-- isPermanentError of the second SyncEngine revision
(src/src/engine/sync.ts, lines 261 to 266), kept separate for the
revision-equivalence claim. -/
def isPermanentError2 (e : FetchError) : Bool :=
  match e with
  | FetchError.http status => 400 ≤ status && status < 500 && status != 401 && status != 429
  | FetchError.net => false

/-- The body argument the first revision passes to fetch
(src/src/engine/sync.ts, line 112): a string body as stored, null becomes
undefined (no body), and any other stored body is JSON-stringified. -/
def encodeBody (b : Body) : Option String :=
  match b with
  | Body.str s => some s
  | Body.null => none
  | b => some (jsonStringify b)

/-- The body argument the second revision passes to fetch
(src/src/engine/sync.ts, line 249): any truthy stored body is
JSON-stringified, falsy bodies become undefined. -/
def encodeBody2 (b : Body) : Option String :=
  if isFalsyBody b then none else some (jsonStringify b)

/-- The sync engine configuration (SyncConfig in src/src/engine/sync.ts).
refreshConfigured records whether a refreshToken callback is present;
maxRetries and backoffFactor use 0 for the absent / falsy JavaScript value,
on which the source applies its || defaults of 5 and 1000. -/
structure SyncConfig where
  refreshConfigured : Bool
  maxRetries : Nat
  backoffFactor : Nat
deriving DecidableEq

/-- maxRetries with the || 5 default of the source applied. -/
def effMaxRetries (c : SyncConfig) : Nat := if c.maxRetries = 0 then 5 else c.maxRetries

/-- backoffFactor with the || 1000 default of the source applied (first
revision; the second revision always uses the calculateBackoff default of
1000). -/
def effBackoffFactor (c : SyncConfig) : Nat := if c.backoffFactor = 0 then 1000 else c.backoffFactor

/-- The oracle for one iteration of the drain loop: the reachability read
at the loop head, the fetch outcome, whether the refreshToken callback
would succeed if invoked, and the jitter Math.random would draw if a
backoff is computed. -/
structure StepInput where
  online : Bool
  fetch : FetchResult
  refreshOk : Bool
  jitter : ℚ
deriving DecidableEq

/-- The sync engine lifecycle events (SyncEvents in src/src/engine/sync.ts
plus the sync:start and sync:end the facade src/src/index.ts subscribes
to). -/
inductive SEvent where
  | syncStart : SEvent
  | syncEnd : SEvent
  | queueEmpty : SEvent
  | requestSuccess (id : String) : SEvent
  | requestError (id : String) (permanent : Bool) : SEvent
deriving DecidableEq

/-- A store mutation the drain performs through the queue manager. -/
inductive StoreOp where
  | dequeue (k : Nat) : StoreOp
  | update (k : Nat) (item : RequestItem) : StoreOp
deriving DecidableEq

/-- The observable outcome of a drain: the final store, the emitted engine
events, the store mutations in order, the body arguments handed to fetch in
order, the backoff waits in order, and whether the loop exited (finished =
false means the oracle list ran out while the loop would have continued).
The queue-change emissions and cached-size bookkeeping of the delegated
queue-manager calls are those of dequeueRequest and updateRequest and are
not repeated in this trace. -/
structure DrainResult where
  store : Store
  events : List SEvent
  ops : List StoreOp
  sent : List (Option String)
  waits : List ℚ
  finished : Bool
deriving DecidableEq

namespace SyncEngine

/-- The while loop of startSync in the first SyncEngine revision
(src/src/engine/sync.ts, lines 45 to 103), one oracle entry per iteration:
check reachability; peek (priority-then-FIFO); on a 2xx dequeue and emit
request-success; on a 401 with refresh configured invoke the callback and
either retry the same entry untouched or, when the callback fails, dequeue
and emit a permanent request-error; on a permanent 4xx dequeue and emit; on
a transient outcome increment retryCount, give up (dequeue, permanent
request-error) once it exceeds maxRetries, and otherwise persist the bumped
count via update, wait calculateBackoff(retryCount, backoffFactor || 1000),
and loop. -/
def drainLoop (cfg : SyncConfig) : List StepInput → Store → DrainResult
  | [], s => ⟨s, [], [], [], [], false⟩
  | inp :: rest, s =>
    if !inp.online then ⟨s, [], [], [], [], true⟩
    else
      match QueueManager.peekNextRequest s with
      | none => ⟨s, [SEvent.queueEmpty], [], [], [], true⟩
      | some (k, item) =>
        let sentBody := encodeBody item.body
        match processRequest inp.fetch with
        | none =>
          let r := drainLoop cfg rest (removeItem s k)
          ⟨r.store, SEvent.requestSuccess item.id :: r.events,
            StoreOp.dequeue k :: r.ops, sentBody :: r.sent, r.waits, r.finished⟩
        | some err =>
          if err == FetchError.http 401 && cfg.refreshConfigured then
            if inp.refreshOk then
              let r := drainLoop cfg rest s
              ⟨r.store, r.events, r.ops, sentBody :: r.sent, r.waits, r.finished⟩
            else
              let r := drainLoop cfg rest (removeItem s k)
              ⟨r.store, SEvent.requestError item.id true :: r.events,
                StoreOp.dequeue k :: r.ops, sentBody :: r.sent, r.waits, r.finished⟩
          else if isPermanentError err then
            let r := drainLoop cfg rest (removeItem s k)
            ⟨r.store, SEvent.requestError item.id true :: r.events,
              StoreOp.dequeue k :: r.ops, sentBody :: r.sent, r.waits, r.finished⟩
          else
            let rc := item.retryCount + 1
            if rc > effMaxRetries cfg then
              let r := drainLoop cfg rest (removeItem s k)
              ⟨r.store, SEvent.requestError item.id true :: r.events,
                StoreOp.dequeue k :: r.ops, sentBody :: r.sent, r.waits, r.finished⟩
            else
              let item2 : RequestItem := { item with retryCount := rc }
              let w := calculateBackoff rc (effBackoffFactor cfg) 30000 inp.jitter
              let r := drainLoop cfg rest (updateItem s k item2)
              ⟨r.store, r.events, StoreOp.update k item2 :: r.ops,
                sentBody :: r.sent, w :: r.waits, r.finished⟩

/-- The while loop of startSync in the second SyncEngine revision
(src/src/engine/sync.ts, lines 185 to 260).  It differs from the first on
the transient path: the stored retryCount is read but never incremented nor
persisted, the give-up comparison is retries >= maxRetries on that stored
count, and the wait is calculateBackoff(retries) with the default base of
1000; and its processRequest JSON-stringifies every truthy body. -/
def drainLoop2 (cfg : SyncConfig) : List StepInput → Store → DrainResult
  | [], s => ⟨s, [], [], [], [], false⟩
  | inp :: rest, s =>
    if !inp.online then ⟨s, [], [], [], [], true⟩
    else
      match QueueManager.peekNextRequest s with
      | none => ⟨s, [SEvent.queueEmpty], [], [], [], true⟩
      | some (k, item) =>
        let sentBody := encodeBody2 item.body
        match processRequest inp.fetch with
        | none =>
          let r := drainLoop2 cfg rest (removeItem s k)
          ⟨r.store, SEvent.requestSuccess item.id :: r.events,
            StoreOp.dequeue k :: r.ops, sentBody :: r.sent, r.waits, r.finished⟩
        | some err =>
          if err == FetchError.http 401 && cfg.refreshConfigured then
            if inp.refreshOk then
              let r := drainLoop2 cfg rest s
              ⟨r.store, r.events, r.ops, sentBody :: r.sent, r.waits, r.finished⟩
            else
              let r := drainLoop2 cfg rest (removeItem s k)
              ⟨r.store, SEvent.requestError item.id true :: r.events,
                StoreOp.dequeue k :: r.ops, sentBody :: r.sent, r.waits, r.finished⟩
          else if isPermanentError2 err then
            let r := drainLoop2 cfg rest (removeItem s k)
            ⟨r.store, SEvent.requestError item.id true :: r.events,
              StoreOp.dequeue k :: r.ops, sentBody :: r.sent, r.waits, r.finished⟩
          else
            let retries := item.retryCount
            if retries ≥ effMaxRetries cfg then
              let r := drainLoop2 cfg rest (removeItem s k)
              ⟨r.store, SEvent.requestError item.id true :: r.events,
                StoreOp.dequeue k :: r.ops, sentBody :: r.sent, r.waits, r.finished⟩
            else
              let w := calculateBackoff retries 1000 30000 inp.jitter
              let r := drainLoop2 cfg rest s
              ⟨r.store, r.events, r.ops, sentBody :: r.sent, w :: r.waits, r.finished⟩

/-- Modelled from the spec: the v1.3 startSync emits sync:start after
setting isDraining and sync:end when the drain finishes (section 4.F steps
2 and 4); neither stale SyncEngine revision in src/src/engine/sync.ts
contains these emissions although src/src/index.ts subscribes to them and
the shipped documentation lists them.  The single-flight and reachability
guards and the loop body are the source-derived first revision.  When the
oracle runs out before the loop exits (finished = false) no sync:end has
been emitted yet. -/
def startSync (cfg : SyncConfig) (isSyncing : Bool) (online0 : Bool)
    (inputs : List StepInput) (s : Store) : DrainResult :=
  if isSyncing then ⟨s, [], [], [], [], true⟩
  else if !online0 then ⟨s, [], [], [], [], true⟩
  else
    let r := drainLoop cfg inputs s
    ⟨r.store, SEvent.syncStart :: r.events ++ (if r.finished then [SEvent.syncEnd] else []),
      r.ops, r.sent, r.waits, r.finished⟩

end SyncEngine

section MinByKeyLemmas

theorem foldl_minStep_isSome (l : List (Nat × RequestItem)) (a : Nat × RequestItem) :
    (l.foldl minStep (some a)).isSome := by
  induction l generalizing a with
  | nil => rfl
  | cons e l ih =>
    simp only [List.foldl_cons, minStep]
    split <;> exact ih _

theorem minByKey_go_mem (l : List (Nat × RequestItem)) (a b : Nat × RequestItem)
    (h : l.foldl minStep (some a) = some b) : b = a ∨ b ∈ l := by
  induction l generalizing a with
  | nil =>
    simp only [List.foldl_nil, Option.some.injEq] at h
    exact Or.inl h.symm
  | cons e l ih =>
    simp only [List.foldl_cons, minStep] at h
    split at h
    · rcases ih _ h with h1 | h1
      · exact Or.inr (h1 ▸ List.mem_cons_self e l)
      · exact Or.inr (List.mem_cons_of_mem _ h1)
    · rcases ih _ h with h1 | h1
      · exact Or.inl h1
      · exact Or.inr (List.mem_cons_of_mem _ h1)

theorem minByKey_go_le (l : List (Nat × RequestItem)) (a b : Nat × RequestItem)
    (h : l.foldl minStep (some a) = some b) :
    b.1 ≤ a.1 ∧ ∀ x ∈ l, b.1 ≤ x.1 := by
  induction l generalizing a with
  | nil =>
    simp only [List.foldl_nil, Option.some.injEq] at h
    subst h
    exact ⟨le_refl _, by simp⟩
  | cons e l ih =>
    simp only [List.foldl_cons, minStep] at h
    split at h
    · rcases ih _ h with ⟨h1, h2⟩
      rename_i hlt
      refine ⟨h1.trans hlt.le, ?_⟩
      intro x hx
      rcases List.mem_cons.mp hx with rfl | hx
      · exact h1
      · exact h2 x hx
    · rcases ih _ h with ⟨h1, h2⟩
      rename_i hnlt
      refine ⟨h1, ?_⟩
      intro x hx
      rcases List.mem_cons.mp hx with rfl | hx
      · exact h1.trans (Nat.le_of_not_lt hnlt)
      · exact h2 x hx

theorem minByKey_mem {l : List (Nat × RequestItem)} {b : Nat × RequestItem}
    (h : minByKey l = some b) : b ∈ l := by
  cases l with
  | nil => cases h
  | cons e l =>
    rcases minByKey_go_mem l e b h with h1 | h1
    · exact h1 ▸ List.mem_cons_self e l
    · exact List.mem_cons_of_mem _ h1

theorem minByKey_le {l : List (Nat × RequestItem)} {b : Nat × RequestItem}
    (h : minByKey l = some b) : ∀ x ∈ l, b.1 ≤ x.1 := by
  cases l with
  | nil => cases h
  | cons e l =>
    rcases minByKey_go_le l e b h with ⟨h1, h2⟩
    intro x hx
    rcases List.mem_cons.mp hx with rfl | hx
    · exact h1
    · exact h2 x hx

theorem minByKey_eq_none {l : List (Nat × RequestItem)} :
    minByKey l = none ↔ l = [] := by
  constructor
  · intro h
    cases l with
    | nil => rfl
    | cons e l =>
      have := foldl_minStep_isSome l e
      rw [show (l.foldl minStep (some e)) = minByKey (e :: l) from rfl, h] at this
      cases this
  · rintro rfl
    rfl

theorem foldl_minStep_map (g : Nat × RequestItem → Nat × RequestItem)
    (hk : ∀ e, (g e).1 = e.1) (l : List (Nat × RequestItem)) :
    ∀ acc : Option (Nat × RequestItem),
      (l.map g).foldl minStep (Option.map g acc) = Option.map g (l.foldl minStep acc) := by
  induction l with
  | nil => intro acc; rfl
  | cons e l ih =>
    intro acc
    have hstep : minStep (Option.map g acc) (g e) = Option.map g (minStep acc e) := by
      cases acc with
      | none => rfl
      | some a =>
        show minStep (some (g a)) (g e) = Option.map g (minStep (some a) e)
        simp only [minStep]
        rw [hk e, hk a, apply_ite (Option.map g)]
        rfl
    simp only [List.map_cons, List.foldl_cons, hstep, ih]

theorem minByKey_map (g : Nat × RequestItem → Nat × RequestItem)
    (hk : ∀ e, (g e).1 = e.1) (l : List (Nat × RequestItem)) :
    minByKey (l.map g) = Option.map g (minByKey l) :=
  foldl_minStep_map g hk l none

theorem filter_map_comm (g : Nat × RequestItem → Nat × RequestItem)
    (p : Nat × RequestItem → Bool) (hp : ∀ e, p (g e) = p e)
    (l : List (Nat × RequestItem)) :
    (l.map g).filter p = (l.filter p).map g := by
  induction l with
  | nil => rfl
  | cons e l ih =>
    simp only [List.map_cons, List.filter_cons, hp e]
    split <;> simp [ih]

end MinByKeyLemmas

/-- The effective precedence class peekNext drains: tagged high, normal,
low in that order, untagged entries only through the final fallback. -/
def rank : Option Priority → Nat
  | some Priority.high => 0
  | some Priority.normal => 1
  | some Priority.low => 2
  | none => 3

theorem rank_eq_high {p : Option Priority} (h : rank p = 0) : p = some Priority.high := by
  cases p with
  | none => simp [rank] at h
  | some q => cases q with
    | high => rfl
    | normal => simp [rank] at h
    | low => simp [rank] at h

theorem rank_eq_normal {p : Option Priority} (h : rank p = 1) : p = some Priority.normal := by
  cases p with
  | none => simp [rank] at h
  | some q => cases q with
    | high => simp [rank] at h
    | normal => rfl
    | low => simp [rank] at h

theorem rank_eq_low {p : Option Priority} (h : rank p = 2) : p = some Priority.low := by
  cases p with
  | none => simp [rank] at h
  | some q => cases q with
    | high => simp [rank] at h
    | normal => simp [rank] at h
    | low => rfl

theorem one_le_rank {p : Option Priority} (h : p ≠ some Priority.high) : 1 ≤ rank p := by
  cases p with
  | none => decide
  | some q => cases q with
    | high => exact absurd rfl h
    | normal => decide
    | low => decide

theorem two_le_rank {p : Option Priority} (hh : p ≠ some Priority.high)
    (hn : p ≠ some Priority.normal) : 2 ≤ rank p := by
  cases p with
  | none => decide
  | some q => cases q with
    | high => exact absurd rfl hh
    | normal => exact absurd rfl hn
    | low => decide

theorem peekFirstByPriority_none {s : Store} {p : Priority}
    (h : peekFirstByPriority s p = none) :
    ∀ e ∈ s.entries, e.2.priority ≠ some p := by
  intro e he hp
  have hfil : s.entries.filter (fun e => e.2.priority == some p) = [] :=
    minByKey_eq_none.mp h
  have : e ∈ s.entries.filter (fun e => e.2.priority == some p) :=
    List.mem_filter.mpr ⟨he, by simp [hp]⟩
  rw [hfil] at this
  cases this

theorem peekFirstByPriority_some {s : Store} {p : Priority} {k : Nat} {item : RequestItem}
    (h : peekFirstByPriority s p = some (k, item)) :
    (k, item) ∈ s.entries ∧ item.priority = some p ∧
      ∀ e ∈ s.entries, e.2.priority = some p → k ≤ e.1 := by
  have hm := minByKey_mem h
  have hf := List.mem_filter.mp hm
  refine ⟨hf.1, by simpa using hf.2, ?_⟩
  intro e he hp
  exact minByKey_le h e (List.mem_filter.mpr ⟨he, by simp [hp]⟩)

theorem peekItem_some {s : Store} {k : Nat} {item : RequestItem}
    (h : peekItem s = some (k, item)) :
    (k, item) ∈ s.entries ∧ ∀ e ∈ s.entries, k ≤ e.1 :=
  ⟨minByKey_mem h, minByKey_le h⟩

/-- Claim C1: peekNext honors the priority-then-FIFO policy.  Whenever
peekNextRequest returns an entry, that entry is in the store, its
precedence class (high before normal before low before untagged) is
minimal among all stored entries, and within its own class it is the one
inserted first (least auto-increment key).  The priority cascade itself is
the spec-modelled v1.3 peekNextRequest over the source-derived
peekFirstByPriority and peekItem. -/
theorem peekNextRequest_priority_fifo (s : Store) (k : Nat) (item : RequestItem)
    (h : QueueManager.peekNextRequest s = some (k, item)) :
    (k, item) ∈ s.entries ∧
      (∀ e ∈ s.entries, rank item.priority ≤ rank e.2.priority) ∧
      (∀ e ∈ s.entries, rank e.2.priority = rank item.priority → k ≤ e.1) := by
  unfold QueueManager.peekNextRequest at h
  cases hh : peekFirstByPriority s Priority.high with
  | some e =>
    simp only [hh, Option.some.injEq] at h
    subst h
    obtain ⟨hmem, hpri, hfifo⟩ := peekFirstByPriority_some hh
    refine ⟨hmem, ?_, ?_⟩
    · intro e2 _
      rw [hpri]
      exact Nat.zero_le _
    · intro e2 he2 hr
      rw [hpri] at hr
      exact hfifo e2 he2 (rank_eq_high hr)
  | none =>
    simp only [hh] at h
    have hH := peekFirstByPriority_none hh
    cases hn : peekFirstByPriority s Priority.normal with
    | some e =>
      simp only [hn, Option.some.injEq] at h
      subst h
      obtain ⟨hmem, hpri, hfifo⟩ := peekFirstByPriority_some hn
      refine ⟨hmem, ?_, ?_⟩
      · intro e2 he2
        rw [hpri]
        exact one_le_rank (hH e2 he2)
      · intro e2 he2 hr
        rw [hpri] at hr
        exact hfifo e2 he2 (rank_eq_normal hr)
    | none =>
      simp only [hn] at h
      have hN := peekFirstByPriority_none hn
      cases hl : peekFirstByPriority s Priority.low with
      | some e =>
        simp only [hl, Option.some.injEq] at h
        subst h
        obtain ⟨hmem, hpri, hfifo⟩ := peekFirstByPriority_some hl
        refine ⟨hmem, ?_, ?_⟩
        · intro e2 he2
          rw [hpri]
          exact two_le_rank (hH e2 he2) (hN e2 he2)
        · intro e2 he2 hr
          rw [hpri] at hr
          exact hfifo e2 he2 (rank_eq_low hr)
      | none =>
        simp only [hl] at h
        have hL := peekFirstByPriority_none hl
        obtain ⟨hmem, hmin⟩ := peekItem_some h
        have hall : ∀ e ∈ s.entries, e.2.priority = none := by
          intro e he
          cases hp : e.2.priority with
          | none => rfl
          | some q =>
            cases q with
            | high => exact absurd hp (hH e he)
            | normal => exact absurd hp (hN e he)
            | low => exact absurd hp (hL e he)
        have hpri : item.priority = none := hall _ hmem
        refine ⟨hmem, ?_, ?_⟩
        · intro e2 he2
          rw [hpri, hall e2 he2]
        · intro e2 he2 _
          exact hmin e2 he2

/-- Concrete queue for the C1 witness: a low entry inserted before a high
entry. -/
def loItemW : RequestItem := ⟨"a", "/lo", "GET", [], Body.null, 0, 0, some Priority.low⟩

/-- The later, higher-priority entry of the C1 witness queue. -/
def hiItemW : RequestItem := ⟨"b", "/hi", "GET", [], Body.null, 1, 0, some Priority.high⟩

/-- The C1 witness store. -/
def wStoreC1 : Store := ⟨[(0, loItemW), (1, hiItemW)], 2⟩

/-- Witness for C1 at a concrete queue: a low entry inserted before a high
entry; peekNextRequest returns the high one and the theorem applies. -/
theorem peekNextRequest_priority_fifo_witness :
    QueueManager.peekNextRequest wStoreC1 = some (1, hiItemW) ∧
    ((1, hiItemW) ∈ wStoreC1.entries ∧
      (∀ e ∈ wStoreC1.entries, rank hiItemW.priority ≤ rank e.2.priority) ∧
      (∀ e ∈ wStoreC1.entries, rank e.2.priority = rank hiItemW.priority → 1 ≤ e.1)) :=
  ⟨by decide, peekNextRequest_priority_fifo wStoreC1 1 hiItemW (by decide)⟩

/-- Counterexample to claim C7 as stated: serializeBody is not the identity
on every string, because the empty string is falsy in JavaScript and the
leading falsy check of the source maps it to null. -/
theorem serializeBody_empty_string_counterexample :
    serializeBody (Body.str "") ≠ Body.str "" := by decide

/-- Claim C7 (amended): serializeBody is the identity on null, on every
non-empty string, and on every blob, byte buffer, multipart form and
URL-encoded form; the empty string (a falsy value) is mapped to null; and
any other (plain-object) value is JSON-stringified. -/
theorem serializeBody_cases :
    serializeBody Body.null = Body.null ∧
    (∀ s, s ≠ "" → serializeBody (Body.str s) = Body.str s) ∧
    (∀ d, serializeBody (Body.blob d) = Body.blob d) ∧
    (∀ d, serializeBody (Body.buf d) = Body.buf d) ∧
    (∀ f, serializeBody (Body.form f) = Body.form f) ∧
    (∀ f, serializeBody (Body.urlenc f) = Body.urlenc f) ∧
    serializeBody (Body.str "") = Body.null ∧
    (∀ f, serializeBody (Body.obj f) = Body.str (jsonStringify (Body.obj f))) := by
  refine ⟨rfl, ?_, fun d => rfl, fun d => rfl, fun f => rfl, fun f => rfl, rfl, fun f => rfl⟩
  intro s hs
  have hb : (s == "") = false := beq_eq_false_iff_ne.mpr hs
  simp [serializeBody, isFalsyBody, hb]

/-- Witness for the amended C7 at the non-empty string "x". -/
theorem serializeBody_cases_witness :
    ("x" : String) ≠ "" ∧ serializeBody (Body.str "x") = Body.str "x" :=
  ⟨by decide, serializeBody_cases.2.1 "x" (by decide)⟩

/-- Claim C8: for every attempt and every jitter in [0, 100),
calculateBackoff with the default base 1000 and cap 30000 returns exactly
min(base * 2 ^ attempt, max) + jitter (the final safety cap at max + 100
never bites), the attempt-0 value is at least the base, and every value is
at most max + 100. -/
theorem calculateBackoff_spec (attempt : Nat) (jitter : ℚ)
    (h0 : 0 ≤ jitter) (h1 : jitter < 100) :
    calculateBackoff attempt 1000 30000 jitter
        = min ((1000 : ℚ) * 2 ^ attempt) 30000 + jitter ∧
    (1000 : ℚ) ≤ calculateBackoff 0 1000 30000 jitter ∧
    calculateBackoff attempt 1000 30000 jitter ≤ 30000 + 100 := by
  have key : ∀ a : Nat, calculateBackoff a 1000 30000 jitter
      = min ((1000 : ℚ) * 2 ^ a) 30000 + jitter := by
    intro a
    have hlt : min ((1000 : ℚ) * 2 ^ a) 30000 + jitter < 30000 + 100 :=
      add_lt_add_of_le_of_lt (min_le_right _ _) h1
    simp only [calculateBackoff]
    exact min_eq_left hlt.le
  refine ⟨key attempt, ?_, ?_⟩
  · rw [key 0]
    have hmin : min ((1000 : ℚ) * 2 ^ 0) 30000 = 1000 := by norm_num
    rw [hmin]
    linarith
  · rw [key attempt]
    exact (add_lt_add_of_le_of_lt (min_le_right _ _) h1).le

/-- Witness for C8 at attempt 3 and jitter 50. -/
theorem calculateBackoff_spec_witness :
    ((0 : ℚ) ≤ 50 ∧ (50 : ℚ) < 100) ∧
    (calculateBackoff 3 1000 30000 50 = min ((1000 : ℚ) * 2 ^ 3) 30000 + 50 ∧
      (1000 : ℚ) ≤ calculateBackoff 0 1000 30000 50 ∧
      calculateBackoff 3 1000 30000 50 ≤ 30000 + 100) :=
  ⟨⟨by norm_num, by norm_num⟩, calculateBackoff_spec 3 50 (by norm_num) (by norm_num)⟩

/-- Claim C6: enqueueRequest assigns the id from the caller-supplied id
when present and from the freshly generated UUID otherwise, persists an
item carrying that id with timestamp = now and retryCount = 0 under the
next auto-increment key, grows the store count and the cached size by one,
emits the queue-change event, and returns the assigned id.  The
supplied-id handling is the spec-modelled part of enqueueRequest; the
persistence is the source-derived addItem. -/
theorem enqueueRequest_assigns (st : QMState) (genId : String) (now : Nat) (req : EnqueueInput) :
    (QueueManager.enqueueRequest st genId now req).2.1
        = (match req.id with | some i => i | none => genId) ∧
    (st.store.nextKey,
        (⟨(QueueManager.enqueueRequest st genId now req).2.1, req.url, req.method, req.headers,
          req.body, now, 0, req.priority⟩ : RequestItem))
      ∈ (QueueManager.enqueueRequest st genId now req).1.store.entries ∧
    count (QueueManager.enqueueRequest st genId now req).1.store = count st.store + 1 ∧
    (QueueManager.enqueueRequest st genId now req).1.size = st.size + 1 ∧
    (QueueManager.enqueueRequest st genId now req).2.2 = [QEvent.queueUpdate] := by
  refine ⟨?_, ?_, ?_, rfl, rfl⟩
  · cases hid : req.id with
    | none => simp [QueueManager.enqueueRequest, hid]
    | some i => simp [QueueManager.enqueueRequest, hid]
  · simp [QueueManager.enqueueRequest, addItem]
  · simp [QueueManager.enqueueRequest, addItem, count]

/-- Claim C5: the facade cancelRequest returns true exactly when an entry
with the given logical id was queued; when it returns false it leaves the
state untouched and emits nothing; when it returns true it has removed the
(first-inserted) matching entry from the store and emitted
request:cancelled with that id.  The facade and the underlying
removeByField scan are source-derived; the queue-manager glue between them
is modelled from the spec. -/
theorem facade_cancelRequest_spec (st : QMState) (rid : String) :
    ((RestSyncLite.cancelRequest st rid).2.1 = true ↔ ∃ e ∈ st.store.entries, e.2.id = rid) ∧
    ((RestSyncLite.cancelRequest st rid).2.1 = false →
      (RestSyncLite.cancelRequest st rid).1 = st ∧
      (RestSyncLite.cancelRequest st rid).2.2 = []) ∧
    ((RestSyncLite.cancelRequest st rid).2.1 = true →
      (RestSyncLite.cancelRequest st rid).2.2 = [FEvent.requestCancelled rid] ∧
      ∃ k item, (k, item) ∈ st.store.entries ∧ item.id = rid ∧
        (RestSyncLite.cancelRequest st rid).1.store.entries
          = st.store.entries.filter (fun e => e.1 != k)) := by
  cases hm : minByKey (st.store.entries.filter (fun e => e.2.id == rid)) with
  | none =>
    have hred : RestSyncLite.cancelRequest st rid = (⟨st.store, st.size⟩, false, []) := by
      unfold RestSyncLite.cancelRequest QueueManager.cancelRequest removeByField
      rw [hm]
      rfl
    refine ⟨?_, ?_, ?_⟩ <;> rw [hred]
    · simp only [Bool.false_eq_true, false_iff]
      rintro ⟨e, he, hid⟩
      have hf : e ∈ st.store.entries.filter (fun e => e.2.id == rid) :=
        List.mem_filter.mpr ⟨he, by simp [hid]⟩
      rw [minByKey_eq_none.mp hm] at hf
      cases hf
    · intro _
      exact ⟨rfl, rfl⟩
    · intro h
      simp at h
  | some e =>
    have hmf := List.mem_filter.mp (minByKey_mem hm)
    have hid : e.2.id = rid := by simpa using hmf.2
    have hred : RestSyncLite.cancelRequest st rid
        = (⟨removeItem st.store e.1, st.size - 1⟩, true, [FEvent.requestCancelled rid]) := by
      unfold RestSyncLite.cancelRequest QueueManager.cancelRequest removeByField
      rw [hm]
      rfl
    refine ⟨?_, ?_, ?_⟩ <;> rw [hred]
    · exact ⟨fun _ => ⟨e, hmf.1, hid⟩, fun _ => rfl⟩
    · intro h
      simp at h
    · intro _
      exact ⟨rfl, e.1, e.2, hmf.1, hid, rfl⟩

/-- The concrete one-entry queue of the C5 witness. -/
def wQMC5 : QMState := ⟨⟨[(0, ⟨"job-1", "/j", "GET", [], Body.null, 0, 0, none⟩)], 1⟩, 1⟩

/-- Witness for C5: cancelling the queued id "job-1" returns true, emits
request:cancelled, and removes the entry. -/
theorem facade_cancelRequest_spec_witness :
    (RestSyncLite.cancelRequest wQMC5 "job-1").2.1 = true ∧
    ((RestSyncLite.cancelRequest wQMC5 "job-1").2.2 = [FEvent.requestCancelled "job-1"] ∧
      ∃ k item, (k, item) ∈ wQMC5.store.entries ∧ item.id = "job-1" ∧
        (RestSyncLite.cancelRequest wQMC5 "job-1").1.store.entries
          = wQMC5.store.entries.filter (fun e => e.1 != k)) :=
  ⟨by decide, (facade_cancelRequest_spec wQMC5 "job-1").2.2 (by decide)⟩

theorem drainLoop_no_lifecycle (cfg : SyncConfig) (inputs : List StepInput) :
    ∀ s : Store,
      SEvent.syncStart ∉ (SyncEngine.drainLoop cfg inputs s).events ∧
      SEvent.syncEnd ∉ (SyncEngine.drainLoop cfg inputs s).events := by
  induction inputs with
  | nil =>
    intro s
    simp [SyncEngine.drainLoop]
  | cons inp rest ih =>
    intro s
    have step : ∀ (x : SEvent) (s2 : Store),
        (SEvent.syncStart = x → False) → (SEvent.syncEnd = x → False) →
        SEvent.syncStart ∉ x :: (SyncEngine.drainLoop cfg rest s2).events ∧
        SEvent.syncEnd ∉ x :: (SyncEngine.drainLoop cfg rest s2).events := by
      intro x s2 h1 h2
      constructor
      · intro h
        rcases List.mem_cons.mp h with h | h
        · exact h1 h
        · exact (ih s2).1 h
      · intro h
        rcases List.mem_cons.mp h with h | h
        · exact h2 h
        · exact (ih s2).2 h
    simp only [SyncEngine.drainLoop]
    split
    · simp
    · split
      · simp
      · split
        · exact step _ _ (fun h => SEvent.noConfusion h) (fun h => SEvent.noConfusion h)
        · split
          · split
            · exact ih _
            · exact step _ _ (fun h => SEvent.noConfusion h) (fun h => SEvent.noConfusion h)
          · split
            · exact step _ _ (fun h => SEvent.noConfusion h) (fun h => SEvent.noConfusion h)
            · split
              · exact step _ _ (fun h => SEvent.noConfusion h) (fun h => SEvent.noConfusion h)
              · exact ih _

/-- Claim C2: a call to startSync that begins a drain (not already
draining, reachable) emits sync:start before anything else and sync:end
exactly once, at the very end of the drain; every request-level event of
the drain lies strictly between the two.  The loop is the source-derived
first revision; the sync:start and sync:end emissions themselves are the
spec-modelled part of startSync. -/
theorem startSync_event_order (cfg : SyncConfig) (inputs : List StepInput) (s : Store)
    (h : (SyncEngine.drainLoop cfg inputs s).finished = true) :
    ∃ middle, (SyncEngine.startSync cfg false true inputs s).events
        = SEvent.syncStart :: middle ++ [SEvent.syncEnd] ∧
      SEvent.syncStart ∉ middle ∧ SEvent.syncEnd ∉ middle := by
  refine ⟨(SyncEngine.drainLoop cfg inputs s).events, ?_,
    (drainLoop_no_lifecycle cfg inputs s).1, (drainLoop_no_lifecycle cfg inputs s).2⟩
  simp [SyncEngine.startSync, h]

/-- Witness for C2: a drain over an empty queue with one reachable step
finishes, and its event list is sync:start, queue-empty, sync:end. -/
theorem startSync_event_order_witness :
    (SyncEngine.drainLoop ⟨false, 0, 0⟩ [⟨true, FetchResult.status 200, false, 0⟩]
        ⟨[], 0⟩).finished = true ∧
    ∃ middle, (SyncEngine.startSync ⟨false, 0, 0⟩ false true
        [⟨true, FetchResult.status 200, false, 0⟩] ⟨[], 0⟩).events
        = SEvent.syncStart :: middle ++ [SEvent.syncEnd] ∧
      SEvent.syncStart ∉ middle ∧ SEvent.syncEnd ∉ middle :=
  ⟨rfl, startSync_event_order ⟨false, 0, 0⟩ [⟨true, FetchResult.status 200, false, 0⟩] ⟨[], 0⟩ rfl⟩

/-- One iteration of the first-revision drain loop on a transient-classified
error: the retryCount is incremented; past maxRetries the entry is dequeued
with a permanent request-error, otherwise the bumped item is persisted via
update and the backoff wait with the incremented count is taken. -/
theorem drainLoop_transient_step (cfg : SyncConfig) (s : Store) (k : Nat)
    (item : RequestItem) (inp : StepInput) (rest : List StepInput)
    (hon : inp.online = true)
    (hpeek : QueueManager.peekNextRequest s = some (k, item))
    (herr : ∃ err, processRequest inp.fetch = some err ∧
      (err == FetchError.http 401 && cfg.refreshConfigured) = false ∧
      isPermanentError err = false) :
    SyncEngine.drainLoop cfg (inp :: rest) s =
      if item.retryCount + 1 > effMaxRetries cfg then
        (fun r => ⟨r.store, SEvent.requestError item.id true :: r.events,
            StoreOp.dequeue k :: r.ops, encodeBody item.body :: r.sent, r.waits, r.finished⟩)
          (SyncEngine.drainLoop cfg rest (removeItem s k))
      else
        (fun r => ⟨r.store, r.events,
            StoreOp.update k { item with retryCount := item.retryCount + 1 } :: r.ops,
            encodeBody item.body :: r.sent,
            calculateBackoff (item.retryCount + 1) (effBackoffFactor cfg) 30000 inp.jitter
              :: r.waits,
            r.finished⟩)
          (SyncEngine.drainLoop cfg rest
            (updateItem s k { item with retryCount := item.retryCount + 1 })) := by
  obtain ⟨err, hpr, h401, hperm⟩ := herr
  simp only [SyncEngine.drainLoop, hpeek, hpr]
  simp only [hon, Bool.not_true, Bool.false_eq_true, if_false]
  simp only [h401, Bool.false_eq_true, if_false]
  simp only [hperm, Bool.false_eq_true, if_false]

/-- The concrete configuration of the C3 counterexample: no refreshToken
configured, defaults for maxRetries and backoffFactor. -/
def cfgNoRefresh : SyncConfig := ⟨false, 0, 0⟩

/-- The queued entry of the C3 counterexample. -/
def itemC3 : RequestItem := ⟨"r1", "/r1", "POST", [], Body.null, 0, 0, none⟩

/-- The one-entry store of the C3 counterexample. -/
def storeC3 : Store := ⟨[(0, itemC3)], 1⟩

/-- The oracle step of the C3 counterexample: reachable, the server
answers 401. -/
def inp401 : StepInput := ⟨true, FetchResult.status 401, false, 0⟩

/-- Counterexample to claim C3 as stated: with no refreshToken configured a
401 is NOT classified permanent by the code (isPermanentError explicitly
excludes 401), so the entry is not dequeued and no permanent request-error
is emitted; instead its retryCount is incremented to 1 and persisted via
update and the entry stays in the store. -/
theorem sync401_noRefresh_counterexample :
    (SyncEngine.drainLoop cfgNoRefresh [inp401] storeC3).ops
        = [StoreOp.update 0 { itemC3 with retryCount := 1 }] ∧
    (SyncEngine.drainLoop cfgNoRefresh [inp401] storeC3).events = [] ∧
    (SyncEngine.drainLoop cfgNoRefresh [inp401] storeC3).store.entries
        = [(0, { itemC3 with retryCount := 1 })] := by
  refine ⟨?_, ?_, ?_⟩ <;> rfl

/-- Claim C3 (amended): a replay that yields 401 with no refreshToken
configured is classified TRANSIENT by the first-revision engine: the
retryCount is incremented and persisted via update and the entry is
retried after a backoff wait; only when the incremented retryCount exceeds
maxRetries is the entry dequeued with a permanent request-error. -/
theorem sync401_noRefresh_transient (cfg : SyncConfig) (s : Store) (k : Nat)
    (item : RequestItem) (inp : StepInput)
    (hnr : cfg.refreshConfigured = false)
    (hon : inp.online = true)
    (hf : inp.fetch = FetchResult.status 401)
    (hpeek : QueueManager.peekNextRequest s = some (k, item)) :
    (item.retryCount + 1 > effMaxRetries cfg →
      (SyncEngine.drainLoop cfg [inp] s).ops = [StoreOp.dequeue k] ∧
      (SyncEngine.drainLoop cfg [inp] s).events = [SEvent.requestError item.id true]) ∧
    (item.retryCount + 1 ≤ effMaxRetries cfg →
      (SyncEngine.drainLoop cfg [inp] s).ops
          = [StoreOp.update k { item with retryCount := item.retryCount + 1 }] ∧
      (SyncEngine.drainLoop cfg [inp] s).events = [] ∧
      (SyncEngine.drainLoop cfg [inp] s).waits
          = [calculateBackoff (item.retryCount + 1) (effBackoffFactor cfg) 30000 inp.jitter]) := by
  have hstep := drainLoop_transient_step cfg s k item inp [] hon hpeek
    ⟨FetchError.http 401, by rw [hf]; rfl, by rw [hnr]; simp, rfl⟩
  constructor
  · intro hrc
    rw [hstep, if_pos hrc]
    exact ⟨rfl, rfl⟩
  · intro hrc
    rw [hstep, if_neg (by omega)]
    exact ⟨rfl, rfl, rfl⟩

/-- Witness for the amended C3 at the concrete 401 drain of the
counterexample state (retryCount 1 is within the default maxRetries 5). -/
theorem sync401_noRefresh_transient_witness :
    (cfgNoRefresh.refreshConfigured = false ∧ inp401.online = true ∧
      inp401.fetch = FetchResult.status 401 ∧
      QueueManager.peekNextRequest storeC3 = some (0, itemC3) ∧
      itemC3.retryCount + 1 ≤ effMaxRetries cfgNoRefresh) ∧
    ((SyncEngine.drainLoop cfgNoRefresh [inp401] storeC3).ops
        = [StoreOp.update 0 { itemC3 with retryCount := itemC3.retryCount + 1 }] ∧
      (SyncEngine.drainLoop cfgNoRefresh [inp401] storeC3).events = [] ∧
      (SyncEngine.drainLoop cfgNoRefresh [inp401] storeC3).waits
          = [calculateBackoff (itemC3.retryCount + 1) (effBackoffFactor cfgNoRefresh) 30000
              inp401.jitter]) :=
  ⟨⟨rfl, rfl, rfl, by decide, by decide⟩,
    (sync401_noRefresh_transient cfgNoRefresh storeC3 0 itemC3 inp401 rfl rfl rfl
      (by decide)).2 (by decide)⟩

theorem peekNextRequest_mem {s : Store} {k : Nat} {item : RequestItem}
    (h : QueueManager.peekNextRequest s = some (k, item)) : (k, item) ∈ s.entries := by
  unfold QueueManager.peekNextRequest at h
  cases hh : peekFirstByPriority s Priority.high with
  | some e =>
    simp only [hh, Option.some.injEq] at h
    subst h
    exact (peekFirstByPriority_some hh).1
  | none =>
    simp only [hh] at h
    cases hn : peekFirstByPriority s Priority.normal with
    | some e =>
      simp only [hn, Option.some.injEq] at h
      subst h
      exact (peekFirstByPriority_some hn).1
    | none =>
      simp only [hn] at h
      cases hl : peekFirstByPriority s Priority.low with
      | some e =>
        simp only [hl, Option.some.injEq] at h
        subst h
        exact (peekFirstByPriority_some hl).1
      | none =>
        simp only [hl] at h
        exact (peekItem_some h).1

theorem filter_map_comm_mem (g : Nat × RequestItem → Nat × RequestItem)
    (p : Nat × RequestItem → Bool) (l : List (Nat × RequestItem))
    (hp : ∀ e ∈ l, p (g e) = p e) :
    (l.map g).filter p = (l.filter p).map g := by
  induction l with
  | nil => rfl
  | cons e l ih =>
    have he := hp e (List.mem_cons_self e l)
    simp only [List.map_cons, List.filter_cons, he]
    split <;> simp [ih (fun x hx => hp x (List.mem_cons_of_mem _ hx))]

theorem peekNextRequest_map (s : Store) (nk : Nat)
    (g : Nat × RequestItem → Nat × RequestItem)
    (hk : ∀ e, (g e).1 = e.1)
    (hp : ∀ e ∈ s.entries, (g e).2.priority = e.2.priority) :
    QueueManager.peekNextRequest ⟨s.entries.map g, nk⟩
      = Option.map g (QueueManager.peekNextRequest s) := by
  have hfil : ∀ p : Priority,
      peekFirstByPriority ⟨s.entries.map g, nk⟩ p
        = Option.map g (peekFirstByPriority s p) := by
    intro p
    unfold peekFirstByPriority
    rw [show (⟨s.entries.map g, nk⟩ : Store).entries = s.entries.map g from rfl,
      filter_map_comm_mem g _ _ (fun e he => by simp [hp e he]), minByKey_map g hk]
  have hfall : peekItem ⟨s.entries.map g, nk⟩ = Option.map g (peekItem s) := by
    unfold peekItem
    exact minByKey_map g hk s.entries
  unfold QueueManager.peekNextRequest
  rw [hfil Priority.high, hfil Priority.normal, hfil Priority.low, hfall]
  cases peekFirstByPriority s Priority.high with
  | some e => rfl
  | none =>
    cases peekFirstByPriority s Priority.normal with
    | some e => rfl
    | none =>
      cases peekFirstByPriority s Priority.low with
      | some e => rfl
      | none => rfl

/-- Re-peek stability: replacing the peeked entry in place by an item with
the same priority (what persisting a bumped retryCount does) makes the next
peek return the same key with the updated item.  Key uniqueness is the
auto-increment invariant of the IndexedDB store. -/
theorem peekNextRequest_update (s : Store) (k : Nat) (item item2 : RequestItem)
    (hnd : (s.entries.map Prod.fst).Nodup)
    (hpeek : QueueManager.peekNextRequest s = some (k, item))
    (hpri : item2.priority = item.priority) :
    QueueManager.peekNextRequest (updateItem s k item2) = some (k, item2) := by
  have hmem := peekNextRequest_mem hpeek
  have hany : s.entries.any (fun e => e.1 == k) = true := by
    simp only [List.any_eq_true]
    exact ⟨(k, item), hmem, by simp⟩
  have hupd : updateItem s k item2
      = ⟨s.entries.map (fun e => if e.1 == k then (k, item2) else e), s.nextKey⟩ := by
    unfold updateItem
    rw [if_pos hany]
  have hk : ∀ e : Nat × RequestItem, ((if e.1 == k then (k, item2) else e) : Nat × RequestItem).1 = e.1 := by
    intro e
    by_cases hek : e.1 = k
    · simp [hek]
    · simp [hek]
  have hp : ∀ e ∈ s.entries,
      ((if e.1 == k then (k, item2) else e) : Nat × RequestItem).2.priority = e.2.priority := by
    intro e he
    by_cases hek : e.1 = k
    · have : e = (k, item) :=
        List.inj_on_of_nodup_map hnd he hmem hek
      rw [this]
      simp [hpri]
    · simp [hek]
  rw [hupd, peekNextRequest_map s s.nextKey _ hk hp, hpeek]
  simp

/-- Claim C4: a transient outcome (network exception, 5xx or 429) makes the
first-revision engine increment the retryCount of the drained entry; when
the incremented count exceeds maxRetries (default 5) the entry is instead
dequeued with a permanent request-error, otherwise the incremented item is
persisted to the store via update, the engine waits
backoff(retryCount, backoffFactor || 1000), and the following peek returns
the same entry with the persisted count.  Keys of the store are distinct,
the auto-increment invariant of IndexedDB. -/
theorem sync_transient_retry (cfg : SyncConfig) (s : Store) (k : Nat) (item : RequestItem)
    (inp : StepInput)
    (hnd : (s.entries.map Prod.fst).Nodup)
    (hon : inp.online = true)
    (hpeek : QueueManager.peekNextRequest s = some (k, item))
    (htr : inp.fetch = FetchResult.netError ∨
      ∃ c, inp.fetch = FetchResult.status c ∧ (500 ≤ c ∧ c ≤ 599 ∨ c = 429)) :
    (item.retryCount + 1 > effMaxRetries cfg →
      (SyncEngine.drainLoop cfg [inp] s).ops = [StoreOp.dequeue k] ∧
      (SyncEngine.drainLoop cfg [inp] s).events = [SEvent.requestError item.id true]) ∧
    (item.retryCount + 1 ≤ effMaxRetries cfg →
      (SyncEngine.drainLoop cfg [inp] s).ops
          = [StoreOp.update k { item with retryCount := item.retryCount + 1 }] ∧
      (SyncEngine.drainLoop cfg [inp] s).events = [] ∧
      (SyncEngine.drainLoop cfg [inp] s).waits
          = [calculateBackoff (item.retryCount + 1) (effBackoffFactor cfg) 30000 inp.jitter] ∧
      QueueManager.peekNextRequest (SyncEngine.drainLoop cfg [inp] s).store
          = some (k, { item with retryCount := item.retryCount + 1 })) := by
  have herr : ∃ err, processRequest inp.fetch = some err ∧
      (err == FetchError.http 401 && cfg.refreshConfigured) = false ∧
      isPermanentError err = false := by
    rcases htr with hne | ⟨c, hc, hr⟩
    · exact ⟨FetchError.net, by rw [hne]; rfl, rfl, rfl⟩
    · refine ⟨FetchError.http c, ?_, ?_, ?_⟩
      · rw [hc]
        have hok : statusOk c = false := by
          unfold statusOk
          rcases hr with ⟨h5, _⟩ | rfl
          · have h3 : ¬ (c < 300) := by omega
            rw [decide_eq_false h3, Bool.and_false]
          · rfl
        simp only [processRequest, hok]
        rfl
      · have hc4 : c ≠ 401 := by rcases hr with ⟨h5, _⟩ | rfl <;> omega
        have hbe : (FetchError.http c == FetchError.http 401) = false := by
          rw [beq_eq_false_iff_ne]
          intro h
          injection h with h
          exact hc4 h
        rw [hbe, Bool.false_and]
      · rcases hr with ⟨h5, _⟩ | rfl
        · have h45 : ¬ (c < 500) := by omega
          simp only [isPermanentError, decide_eq_false h45]
          simp
        · rfl
  have hstep := drainLoop_transient_step cfg s k item inp [] hon hpeek herr
  constructor
  · intro hrc
    rw [hstep, if_pos hrc]
    exact ⟨rfl, rfl⟩
  · intro hrc
    rw [hstep, if_neg (by omega)]
    refine ⟨rfl, rfl, rfl, ?_⟩
    show QueueManager.peekNextRequest
        (updateItem s k { item with retryCount := item.retryCount + 1 })
      = some (k, { item with retryCount := item.retryCount + 1 })
    exact peekNextRequest_update s k item _ hnd hpeek rfl

/-- The queued entry of the C4 witness. -/
def itemC4 : RequestItem := ⟨"r2", "/r2", "PUT", [], Body.null, 0, 0, none⟩

/-- The one-entry store of the C4 witness. -/
def storeC4 : Store := ⟨[(0, itemC4)], 1⟩

/-- The oracle step of the C4 witness: reachable, the server answers
500. -/
def inp500 : StepInput := ⟨true, FetchResult.status 500, false, 0⟩

/-- Witness for C4: a 500 on a fresh entry persists retryCount 1 via
update, waits the attempt-1 backoff, and the re-peek finds the same
entry. -/
theorem sync_transient_retry_witness :
    ((storeC4.entries.map Prod.fst).Nodup ∧ inp500.online = true ∧
      QueueManager.peekNextRequest storeC4 = some (0, itemC4) ∧
      itemC4.retryCount + 1 ≤ effMaxRetries cfgNoRefresh) ∧
    ((SyncEngine.drainLoop cfgNoRefresh [inp500] storeC4).ops
        = [StoreOp.update 0 { itemC4 with retryCount := itemC4.retryCount + 1 }] ∧
      (SyncEngine.drainLoop cfgNoRefresh [inp500] storeC4).events = [] ∧
      (SyncEngine.drainLoop cfgNoRefresh [inp500] storeC4).waits
          = [calculateBackoff (itemC4.retryCount + 1) (effBackoffFactor cfgNoRefresh) 30000
              inp500.jitter] ∧
      QueueManager.peekNextRequest (SyncEngine.drainLoop cfgNoRefresh [inp500] storeC4).store
          = some (0, { itemC4 with retryCount := itemC4.retryCount + 1 })) :=
  ⟨⟨by decide, rfl, by decide, by decide⟩,
    (sync_transient_retry cfgNoRefresh storeC4 0 itemC4 inp500 (by decide) rfl (by decide)
      (Or.inr ⟨500, rfl, Or.inl (by omega)⟩)).2 (by decide)⟩

/-- The queued entry of the C10 divergence: an already-stringified (string)
body. -/
def itemC10 : RequestItem := ⟨"r3", "/r3", "POST", [], Body.str "x", 0, 0, none⟩

/-- The one-entry store of the C10 divergence. -/
def storeC10 : Store := ⟨[(0, itemC10)], 1⟩

/-- Counterexample to claim C10 as stated: on the same initial store (one
fresh entry with a string body) and the same oracle (reachable, server
answers 500) the two SyncEngine revisions perform different store-operation
sequences (the first persists the bumped retryCount via update, the second
performs no store operation at all) and hand the platform primitive
different body encodings (the first passes the string as stored, the second
JSON-stringifies it again). -/
theorem syncEngine_revisions_diverge :
    (SyncEngine.drainLoop cfgNoRefresh [inp500] storeC10).ops
        ≠ (SyncEngine.drainLoop2 cfgNoRefresh [inp500] storeC10).ops ∧
    (SyncEngine.drainLoop cfgNoRefresh [inp500] storeC10).sent
        ≠ (SyncEngine.drainLoop2 cfgNoRefresh [inp500] storeC10).sent := by
  refine ⟨?_, ?_⟩ <;> decide

/-- Claim C10 (amended): the two concatenated SyncEngine revisions share
the same permanent-error classifier but are not behaviorally equivalent:
on a transient outcome the first increments and persists the retryCount
while the second leaves the store untouched, and the first passes a string
body to the platform primitive as stored while the second JSON-stringifies
every truthy body, double-encoding strings. -/
theorem syncEngine_revisions_comparison :
    (∀ e, isPermanentError e = isPermanentError2 e) ∧
    (SyncEngine.drainLoop cfgNoRefresh [inp500] storeC10).ops
        = [StoreOp.update 0 { itemC10 with retryCount := 1 }] ∧
    (SyncEngine.drainLoop2 cfgNoRefresh [inp500] storeC10).ops = [] ∧
    encodeBody (Body.str "x") = some "x" ∧
    encodeBody2 (Body.str "x") = some "\"x\"" := by
  refine ⟨fun e => ?_, rfl, rfl, rfl, ?_⟩
  · cases e <;> rfl
  · decide

/-- Well-formedness of a queue-manager state reachable through completed
operations: keys are below the auto-increment counter, keys are distinct,
and the cached size equals the store count. -/
def WFQM (st : QMState) : Prop :=
  (∀ e ∈ st.store.entries, e.1 < st.store.nextKey) ∧
  (st.store.entries.map Prod.fst).Nodup ∧
  st.size = st.store.entries.length

theorem length_filter_ne_of_mem {l : List (Nat × RequestItem)} {k : Nat}
    (hnd : (l.map Prod.fst).Nodup) (hmem : ∃ e ∈ l, e.1 = k) :
    (l.filter (fun e => e.1 != k)).length + 1 = l.length := by
  induction l with
  | nil =>
    rcases hmem with ⟨e, he, _⟩
    cases he
  | cons x l ih =>
    rw [List.map_cons, List.nodup_cons] at hnd
    by_cases hx : x.1 = k
    · have hkeep : ∀ e ∈ l, (e.1 != k) = true := by
        intro e he
        rw [bne_iff_ne]
        intro hek
        exact hnd.1 (hx ▸ hek ▸ List.mem_map_of_mem Prod.fst he)
      rw [List.filter_cons_of_neg (by simp [hx]), List.filter_eq_self.mpr hkeep]
      simp
    · rcases hmem with ⟨e, he, hek⟩
      rcases List.mem_cons.mp he with rfl | he2
      · exact absurd hek hx
      · have hrec := ih hnd.2 ⟨e, he2, hek⟩
        rw [List.filter_cons_of_pos (by simp [hx])]
        simp only [List.length_cons]
        omega

theorem WF_remove {st : QMState} (hwf : WFQM st) {k : Nat}
    (hmem : ∃ e ∈ st.store.entries, e.1 = k) :
    WFQM ⟨removeItem st.store k, st.size - 1⟩ := by
  obtain ⟨hbound, hnd, hsize⟩ := hwf
  have hsub : (st.store.entries.filter (fun e => e.1 != k)).Sublist st.store.entries :=
    List.filter_sublist _
  refine ⟨?_, ?_, ?_⟩
  · intro e he
    exact hbound e (hsub.mem he)
  · exact (hsub.map Prod.fst).nodup hnd
  · have := length_filter_ne_of_mem hnd hmem
    show st.size - 1 = (st.store.entries.filter (fun e => e.1 != k)).length
    omega

theorem applyOp_WF {st : QMState} {op : QOp} (hwf : WFQM st)
    (hv : (match op with
      | QOp.dequeue k => st.store.entries.any (fun e => e.1 == k)
      | QOp.update k _ => st.store.entries.any (fun e => e.1 == k)
      | _ => true) = true) :
    WFQM (applyOp st op) := by
  obtain ⟨hbound, hnd, hsize⟩ := hwf
  cases op with
  | enqueue g n r =>
    have hred : applyOp st (QOp.enqueue g n r)
        = ⟨⟨st.store.entries ++
            [(st.store.nextKey,
              ⟨r.id.getD g, r.url, r.method, r.headers, r.body, n, 0, r.priority⟩)],
            st.store.nextKey + 1⟩, st.size + 1⟩ := rfl
    rw [hred]
    refine ⟨?_, ?_, ?_⟩
    · intro e he
      rcases List.mem_append.mp he with he | he
      · exact (hbound e he).trans (Nat.lt_succ_self _)
      · rw [List.mem_singleton.mp he]
        exact Nat.lt_succ_self _
    · show ((st.store.entries ++ _).map Prod.fst).Nodup
      rw [List.map_append]
      refine List.nodup_append.mpr ⟨hnd, List.nodup_singleton _, ?_⟩
      intro a ha hb
      rcases List.mem_map.mp ha with ⟨e, he, rfl⟩
      have hb2 : e.1 = st.store.nextKey := by simpa using hb
      exact absurd (hb2 ▸ hbound e he) (lt_irrefl _)
    · show st.size + 1 = (st.store.entries ++ _).length
      simp [hsize]
  | dequeue k =>
    have hmem : ∃ e ∈ st.store.entries, e.1 = k := by
      rcases List.any_eq_true.mp hv with ⟨e, he, hek⟩
      exact ⟨e, he, by simpa using hek⟩
    exact WF_remove ⟨hbound, hnd, hsize⟩ hmem
  | update k it =>
    have hred : applyOp st (QOp.update k it)
        = ⟨⟨st.store.entries.map (fun e => if e.1 == k then (k, it) else e),
            st.store.nextKey⟩, st.size⟩ := by
      show QueueManager.updateRequest st k it = _
      unfold QueueManager.updateRequest updateItem
      rw [if_pos hv]
    rw [hred]
    have hkeys : ((st.store.entries.map (fun e => if e.1 == k then (k, it) else e)).map
        Prod.fst) = st.store.entries.map Prod.fst := by
      rw [List.map_map]
      apply List.map_congr_left
      intro e _
      by_cases hek : e.1 = k
      · simp [hek]
      · simp [hek]
    refine ⟨?_, ?_, ?_⟩
    · intro e he
      rcases List.mem_map.mp he with ⟨x, hx, rfl⟩
      by_cases hxk : x.1 = k
      · simpa [hxk] using hxk ▸ hbound x hx
      · simpa [hxk] using hbound x hx
    · rw [hkeys]
      exact hnd
    · simpa using hsize
  | cancel rid =>
    cases hm : minByKey (st.store.entries.filter (fun e => e.2.id == rid)) with
    | none =>
      have hred : applyOp st (QOp.cancel rid) = ⟨st.store, st.size⟩ := by
        show (QueueManager.cancelRequest st rid).1 = _
        unfold QueueManager.cancelRequest removeByField
        rw [hm]
        rfl
      rw [hred]
      exact ⟨hbound, hnd, hsize⟩
    | some e =>
      have hred : applyOp st (QOp.cancel rid) = ⟨removeItem st.store e.1, st.size - 1⟩ := by
        show (QueueManager.cancelRequest st rid).1 = _
        unfold QueueManager.cancelRequest removeByField
        rw [hm]
        rfl
      rw [hred]
      exact WF_remove ⟨hbound, hnd, hsize⟩
        ⟨e, (List.mem_filter.mp (minByKey_mem hm)).1, rfl⟩

theorem validOps_WF : ∀ (ops : List QOp) (st : QMState),
    WFQM st → validOps st ops = true → WFQM (applyOps st ops) := by
  intro ops
  induction ops with
  | nil =>
    intro st h _
    exact h
  | cons op ops ih =>
    intro st hwf hv
    simp only [validOps, Bool.and_eq_true] at hv
    obtain ⟨h1, h2⟩ := hv
    exact ih (applyOp st op) (applyOp_WF hwf h1) h2

/-- The first enqueue of the C9 sequences. -/
def enqA : QOp := QOp.enqueue "a" 0 ⟨"/a", "POST", [], Body.null, none, none⟩

/-- The second enqueue of the C9 sequences. -/
def enqB : QOp := QOp.enqueue "b" 1 ⟨"/b", "POST", [], Body.null, none, none⟩

/-- Counterexample to claim C9 as stated: a sequence of completed
operations in which a key is dequeued twice (the second removeItem is a
completed no-op on the store, but the cached size is still decremented)
leaves the cached size different from the store count: after
enqueue, enqueue, dequeue 0, dequeue 0 the size is 0 and the count 1. -/
theorem queueSize_count_counterexample :
    (applyOps initQM [enqA, enqB, QOp.dequeue 0, QOp.dequeue 0]).size
      ≠ count (applyOps initQM [enqA, enqB, QOp.dequeue 0, QOp.dequeue 0]).store := by
  decide

/-- Claim C9 (amended): starting from an initialized empty store, after any
sequence of completed queue-manager operations in which every dequeue and
every update targets a key present in the store at that moment (the keys a
single well-behaved context holds), the cached size equals the store
count; a dequeue of a stale key breaks the equality, as the counterexample
shows. -/
theorem queueSize_eq_count (ops : List QOp) (h : validOps initQM ops = true) :
    (applyOps initQM ops).size = count (applyOps initQM ops).store := by
  have hwf0 : WFQM initQM := ⟨by simp [initQM], by simp [initQM], rfl⟩
  exact (validOps_WF ops initQM hwf0 h).2.2

/-- Witness for the amended C9: enqueue then dequeue of the fresh key is a
key-valid sequence and leaves size = count (= 0). -/
theorem queueSize_eq_count_witness :
    validOps initQM [enqA, QOp.dequeue 0] = true ∧
    (applyOps initQM [enqA, QOp.dequeue 0]).size
      = count (applyOps initQM [enqA, QOp.dequeue 0]).store :=
  ⟨by decide, queueSize_eq_count [enqA, QOp.dequeue 0] (by decide)⟩
